import Mathlib

/-!
Verification of the transcript-to-genomic coordinate translation tool
(`translate_transcript_to_genomic_coords.py`).

The development shallowly embeds the core of the script:
CIGAR-string parsing (`check_genome_map_line_format` / `process_cigar_string`),
construction of the per-alignment coordinate map (`generate_genomic_dict`),
the registry of alignments (`create_transcript_genomic_dict` / `map_coordinates`)
and query resolution (`merge_transcript_file`).

Python dictionaries are embedded as association lists with dict-update
semantics (`updateAssoc`: replace in place if the key exists, else append),
so that key insertion order is preserved exactly as in CPython.
Strings are embedded as `List Char` for the character-level scans and as
`String` for identifiers.
-/

namespace TranscriptCoords

/-- The CIGAR operation alphabet of the format check in
`check_genome_map_line_format`: the character class `[MIDNSHP=X]` of
`re.search(r'\d+[MIDNSHP=X]', cigar, re.I)`, case-insensitive. -/
def isCigarAlphabet (c : Char) : Bool :=
  c = 'M' || c = 'm' || c = 'I' || c = 'i' || c = 'D' || c = 'd' ||
  c = 'N' || c = 'n' || c = 'S' || c = 's' || c = 'H' || c = 'h' ||
  c = 'P' || c = 'p' || c = '=' || c = 'X' || c = 'x'

/-- `re.search(r'\d+[MIDNSHP=X]', s, re.I)` succeeds iff some digit of `s` is
immediately followed by an alphabet character (a match of `\d+[...]` ends in
such a pair, and such a pair is a match). This is the CIGAR part of
`check_genome_map_line_format`. -/
def hasDigitOp : List Char → Bool
  | a :: b :: rest => (a.isDigit && isCigarAlphabet b) || hasDigitOp (b :: rest)
  | _ => false

/-- Characters treated as operator characters by `process_cigar_string`:
the loop flushes the digit buffer exactly when
`cigar_char.isalpha() or cigar_char == '='` holds. -/
def isOpChar (c : Char) : Bool := c.isAlpha || c = '='

/-- Numeric value of an ASCII digit character. -/
def digitVal (c : Char) : Nat := c.toNat - 48

/-- Python `int(s)` restricted to unsigned decimal numerals: defined on
non-empty all-digit strings, undefined otherwise. The real `int` also accepts
sign-prefixed numerals (`int("-3")` is `-3`, so the source accepts `"-3M"`
and emits a negative length), which a `Nat`-valued model cannot represent;
every theorem whose truth depends on the value of a conversion therefore
restricts its input string to digits, letters and `=`, a domain on which all
buffers are unsigned numerals and this model coincides with `int`. -/
def strToNat? (s : List Char) : Option Nat :=
  if s ≠ [] ∧ s.all Char.isDigit = true then
    some (s.foldl (fun n c => 10 * n + digitVal c) 0)
  else none

/-- The two failure modes of CIGAR-field processing: `malformed` models the
`print`-and-`sys.exit` paths (the regex check of `check_genome_map_line_format`
and the empty-buffer check of `process_cigar_string`), `valueError` models an
uncaught exception from `int()` on a non-numeric buffer. -/
inductive CigarError where
  | malformed
  | valueError
deriving DecidableEq

/-- The scanning loop of `process_cigar_string`: `buf` is the current digit
buffer (`cigar_int`), the result accumulates `[int(buf), op]` pairs in input
order; a trailing non-empty buffer is silently discarded at end of input. -/
def processAux (buf : List Char) (s : List Char) : Except CigarError (List (Nat × Char)) :=
  match s with
  | [] => Except.ok []
  | c :: rest =>
    if isOpChar c then
      if buf = [] then Except.error CigarError.malformed
      else
        match strToNat? buf with
        | none => Except.error CigarError.valueError
        | some n =>
          match processAux [] rest with
          | Except.error e => Except.error e
          | Except.ok l => Except.ok ((n, c) :: l)
    else processAux (buf ++ [c]) rest

/-- `process_cigar_string` from the source: scan the string with an empty
initial buffer. -/
def process_cigar_string (s : List Char) : Except CigarError (List (Nat × Char)) :=
  processAux [] s

/-- The full treatment of a CIGAR field of the genome-mapping file:
`check_genome_map_line_format` first requires `re.search(r'\d+[MIDNSHP=X]', ., re.I)`
to succeed (else the run aborts), then `process_cigar_string` parses it. -/
def parseCigarField (s : List Char) : Except CigarError (List (Nat × Char)) :=
  if hasDigitOp s then process_cigar_string s else Except.error CigarError.malformed

/-- `re.match(r'[M=X]', c, re.I)` on a single character: consuming-both
operators in `generate_genomic_dict`. -/
def isMatchOp (c : Char) : Bool :=
  c = 'M' || c = 'm' || c = '=' || c = 'X' || c = 'x'

/-- `re.match(r'[DN]', c, re.I)` on a single character: reference-only
operators in `generate_genomic_dict`. -/
def isRefOp (c : Char) : Bool :=
  c = 'D' || c = 'd' || c = 'N' || c = 'n'

/-- `re.match(r'[IS]', c, re.I)` on a single character: query-only
operators in `generate_genomic_dict`. -/
def isQueryOp (c : Char) : Bool :=
  c = 'I' || c = 'i' || c = 'S' || c = 's'

/-- The inner loop of the consuming-both branch of `generate_genomic_dict`:
record `n` consecutive pairs `(tr_idx, chr_idx)`, advancing both cursors by
one after each recorded pair. -/
def matchRun (tr ch : Nat) : Nat → List (Nat × Nat)
  | 0 => []
  | n + 1 => (tr, ch) :: matchRun (tr + 1) (ch + 1) n

/-- The operation walk of `generate_genomic_dict`, with explicit cursors
`tr` (`tr_idx`) and `ch` (`chr_idx`). Operators outside the three classes
(e.g. `H`, `P`, or a stray letter like `Q`) fall through all three regex
branches and touch neither cursor. The produced association list has strictly
increasing keys, so it coincides with the Python dict it models. -/
def genDictAux (tr ch : Nat) (ops : List (Nat × Char)) : List (Nat × Nat) :=
  match ops with
  | [] => []
  | (n, c) :: rest =>
    if isMatchOp c then matchRun tr ch n ++ genDictAux (tr + n) (ch + n) rest
    else if isRefOp c then genDictAux tr (ch + n) rest
    else if isQueryOp c then genDictAux (tr + n) ch rest
    else genDictAux tr ch rest

/-- `generate_genomic_dict` from the source: walk the parsed CIGAR operations
starting from transcript cursor `0` and genomic cursor `chr_start_coord`. -/
def generate_genomic_dict (chr_start_coord : Nat) (cigar_arr : List (Nat × Char)) :
    List (Nat × Nat) :=
  genDictAux 0 chr_start_coord cigar_arr

/-- Final values of the two cursors (`tr_idx`, `chr_idx`) after the walk of
`generate_genomic_dict`, mirroring its branch structure exactly. -/
def finalCursors (tr ch : Nat) (ops : List (Nat × Char)) : Nat × Nat :=
  match ops with
  | [] => (tr, ch)
  | (n, c) :: rest =>
    if isMatchOp c then finalCursors (tr + n) (ch + n) rest
    else if isRefOp c then finalCursors tr (ch + n) rest
    else if isQueryOp c then finalCursors (tr + n) ch rest
    else finalCursors tr ch rest

/-- Modelled from the spec: "reconstructing total consumed reference length
from a CIGAR sequence (summing M/=/X/D/N lengths)". To be compared with the
final genomic cursor of the code's walk. -/
def refConsumedLen : List (Nat × Char) → Nat
  | [] => 0
  | (n, c) :: rest => (if isMatchOp c || isRefOp c then n else 0) + refConsumedLen rest

/-- Total query length of a parsed CIGAR sequence (sum of all lengths). -/
def opsTotalLen (ops : List (Nat × Char)) : Nat :=
  (ops.map Prod.fst).sum

/-- Python dict assignment `d[k] = v` on an insertion-ordered association
list: replace the value in place if the key is present, else append the new
binding at the end. -/
def updateAssoc {α β : Type} [DecidableEq α] : List (α × β) → α → β → List (α × β)
  | [], k, v => [(k, v)]
  | (k₁, v₁) :: rest, k, v =>
    if k₁ = k then (k₁, v) :: rest else (k₁, v₁) :: updateAssoc rest k v

/-- One already-field-split, already-validated line of the genome-mapping
file, with the CIGAR field already run through `process_cigar_string`
(the I/O and per-line validation layer is outside the core). -/
structure AlignmentRecord where
  transcript_id : String
  chr_num : String
  start_coord : Nat
  cigar : List (Nat × Char)
deriving DecidableEq

/-- The per-transcript registry entry: a chromosome-keyed dict holding the
start coordinate and parsed CIGAR of the alignment. -/
abbrev TranscriptEntry := List (String × (Nat × List (Nat × Char)))

/-- The loop body of `create_transcript_genomic_dict`, lines 44-47 of the
source: for every row it first executes
`transcript_to_genomic_dict[transcript_id] = {}` — resetting the whole
per-transcript dict — and then stores the row's chromosome entry, so the
net effect of one row is to bind `transcript_id` to a singleton dict. -/
def create_transcript_genomic_dict (records : List AlignmentRecord) :
    List (String × TranscriptEntry) :=
  records.foldl
    (fun acc r => updateAssoc acc r.transcript_id [(r.chr_num, (r.start_coord, r.cigar))])
    []

/-- `map_coordinates` from the source: replace every stored
(start, parsed CIGAR) pair by the coordinate dict `generate_genomic_dict`
builds from it. -/
def map_coordinates (d : List (String × TranscriptEntry)) :
    List (String × List (String × List (Nat × Nat))) :=
  d.map (fun t => (t.1, t.2.map (fun c => (c.1, generate_genomic_dict c.2.1 c.2.2))))

/-- Outcome of one query against one transcript (and chromosome), as
observable in `merge_transcript_file`: a line written to the output file,
or one of the two diagnostic messages printed to stdout. -/
inductive Resolution where
  | resolved : String → Nat → String → Nat → Resolution
  | unknownTranscript : String → Nat → Resolution
  | unmappedCoordinate : String → Nat → String → Resolution
deriving DecidableEq

/-- The per-query body of `merge_transcript_file`: if the transcript is not
a key of `coord_map`, one "does not exist in genome mapping file" diagnostic
and nothing else; otherwise one outcome per chromosome of the transcript's
dict, in dict order — an output line when the coordinate is a key of that
chromosome's coordinate dict, an "does not exist" coordinate diagnostic
otherwise. -/
def resolveQuery (coord_map : List (String × List (String × List (Nat × Nat))))
    (t : String) (coord : Nat) : List Resolution :=
  match List.lookup t coord_map with
  | none => [Resolution.unknownTranscript t coord]
  | some chs =>
    chs.map (fun c =>
      match List.lookup coord c.2 with
      | none => Resolution.unmappedCoordinate t coord c.1
      | some g => Resolution.resolved t coord c.1 g)

/-- The query loop of `merge_transcript_file` over an already-field-split,
already-validated query list: outcomes of consecutive queries are
concatenated; no query aborts the loop. -/
def merge_transcript_file (queries : List (String × Nat))
    (coord_map : List (String × List (String × List (Nat × Nat)))) : List Resolution :=
  queries.flatMap (fun q => resolveQuery coord_map q.1 q.2)

/-- The primary output channel of `merge_transcript_file`: only `resolved`
outcomes are written to the output file, as
`(transcript_id, coordinate, chromosome, genomic coordinate)` rows. -/
def primaryOutput (rs : List Resolution) : List (String × Nat × String × Nat) :=
  rs.filterMap (fun r =>
    match r with
    | Resolution.resolved t c ch g => some (t, c, ch, g)
    | _ => none)

/-- `s` starts with an operator character (first spot where the digit buffer
of `process_cigar_string` is empty at an operator). -/
def startsWithOp : List Char → Bool
  | [] => false
  | c :: _ => isOpChar c

/-- Two adjacent operator characters occur in `s` (the second spot where the
digit buffer of `process_cigar_string` is empty at an operator, for strings
of digits, letters and `=`). -/
def hasAdjacentOps : List Char → Bool
  | a :: b :: rest => (isOpChar a && isOpChar b) || hasAdjacentOps (b :: rest)
  | _ => false

/-! ### Helper lemmas about `matchRun` and `genDictAux` -/

theorem matchRun_length (tr ch n : Nat) : (matchRun tr ch n).length = n := by
  induction n generalizing tr ch with
  | zero => rfl
  | succ n ih => simp [matchRun, ih]

theorem matchRun_append (tr ch m k : Nat) :
    matchRun tr ch (m + k) = matchRun tr ch m ++ matchRun (tr + m) (ch + m) k := by
  induction m generalizing tr ch with
  | zero => simp [matchRun]
  | succ m ih =>
    have h : m + 1 + k = (m + k) + 1 := by omega
    rw [h]
    simp only [matchRun, ih (tr + 1) (ch + 1), List.cons_append]
    have h1 : tr + 1 + m = tr + (m + 1) := by omega
    have h2 : ch + 1 + m = ch + (m + 1) := by omega
    rw [h1, h2]

theorem matchRun_map_fst (tr ch n : Nat) :
    (matchRun tr ch n).map Prod.fst = List.range' tr n := by
  induction n generalizing tr ch with
  | zero => rfl
  | succ n ih => simp [matchRun, List.range'_succ, ih]

theorem matchRun_lookup {i n : Nat} (tr ch : Nat) (hi : i < n) :
    (matchRun tr ch n).lookup (tr + i) = some (ch + i) := by
  induction n generalizing tr ch i with
  | zero => omega
  | succ n ih =>
    cases i with
    | zero => simp [matchRun]
    | succ j =>
      have hne : ((tr + (j + 1)) == tr) = false := by
        simp only [beq_eq_false_iff_ne, ne_eq]
        omega
      rw [matchRun, List.lookup_cons, hne]
      have := ih (tr + 1) (ch + 1) (i := j) (by omega)
      simpa [Nat.add_assoc, Nat.add_comm 1 j] using this

theorem mem_matchRun_bounds {p : Nat × Nat} {tr ch n : Nat} (h : p ∈ matchRun tr ch n) :
    tr ≤ p.1 ∧ p.1 < tr + n ∧ ch ≤ p.2 ∧ p.2 < ch + n := by
  induction n generalizing tr ch with
  | zero => simp [matchRun] at h
  | succ n ih =>
    simp only [matchRun, List.mem_cons] at h
    rcases h with rfl | h
    · simp
    · have := ih h
      omega

theorem mem_genDictAux_bounds {p : Nat × Nat} {tr ch : Nat} {ops : List (Nat × Char)}
    (h : p ∈ genDictAux tr ch ops) : tr ≤ p.1 ∧ ch ≤ p.2 := by
  induction ops generalizing tr ch with
  | nil => simp [genDictAux] at h
  | cons q rest ih =>
    obtain ⟨n, c⟩ := q
    rw [genDictAux] at h
    split at h
    · rcases List.mem_append.mp h with hm | hg
      · have := mem_matchRun_bounds hm
        omega
      · have := ih hg
        omega
    · split at h
      · have := ih h
        omega
      · split at h
        · have := ih h
          omega
        · exact ih h

theorem matchRun_pairwise (tr ch n : Nat) :
    (matchRun tr ch n).Pairwise (fun p q => p.1 < q.1 ∧ p.2 < q.2) := by
  induction n generalizing tr ch with
  | zero => simp [matchRun]
  | succ n ih =>
    rw [matchRun]
    refine List.Pairwise.cons ?_ (ih (tr + 1) (ch + 1))
    intro q hq
    have := mem_matchRun_bounds hq
    exact ⟨by omega, by omega⟩

theorem genDictAux_pairwise (ops : List (Nat × Char)) (tr ch : Nat) :
    (genDictAux tr ch ops).Pairwise (fun p q => p.1 < q.1 ∧ p.2 < q.2) := by
  induction ops generalizing tr ch with
  | nil => simp [genDictAux]
  | cons q rest ih =>
    obtain ⟨n, c⟩ := q
    rw [genDictAux]
    split
    · refine List.pairwise_append.mpr ⟨matchRun_pairwise tr ch n, ih _ _, ?_⟩
      intro a ha b hb
      have h1 := mem_matchRun_bounds ha
      have h2 := mem_genDictAux_bounds hb
      exact ⟨by omega, by omega⟩
    · split
      · exact ih _ _
      · split
        · exact ih _ _
        · exact ih _ _

theorem lookup_mem {β : Type} {l : List (Nat × β)} {k : Nat} {v : β}
    (h : l.lookup k = some v) : (k, v) ∈ l := by
  induction l with
  | nil => simp [List.lookup] at h
  | cons p rest ih =>
    obtain ⟨a, b⟩ := p
    by_cases hk : k = a
    · subst hk
      rw [List.lookup_cons_self] at h
      cases h
      exact List.mem_cons_self _ _
    · have hne : (k == a) = false := by
        simp only [beq_eq_false_iff_ne, ne_eq]
        exact hk
      rw [List.lookup_cons, hne] at h
      exact List.mem_cons_of_mem _ (ih h)

theorem genDictAux_all_match (ops : List (Nat × Char)) (tr ch : Nat)
    (h : ∀ p ∈ ops, isMatchOp p.2 = true) :
    genDictAux tr ch ops = matchRun tr ch (opsTotalLen ops) := by
  induction ops generalizing tr ch with
  | nil => rfl
  | cons p rest ih =>
    obtain ⟨n, c⟩ := p
    have hc : isMatchOp c = true := h (n, c) (List.mem_cons_self _ _)
    have hrest : ∀ q ∈ rest, isMatchOp q.2 = true :=
      fun q hq => h q (List.mem_cons_of_mem _ hq)
    rw [genDictAux, if_pos hc, ih _ _ hrest]
    have hlen : opsTotalLen ((n, c) :: rest) = n + opsTotalLen rest := by
      simp [opsTotalLen]
    rw [hlen, matchRun_append]

/-! ### Character-class facts -/

theorem uint32_le_iff (a b : UInt32) : a ≤ b ↔ a.toNat ≤ b.toNat := Iff.rfl

theorem char_toNat_bounds {c : Char} (hd : c.isDigit = true) :
    48 ≤ c.toNat ∧ c.toNat ≤ 57 := by
  simp only [Char.isDigit, Bool.and_eq_true, decide_eq_true_eq, uint32_le_iff] at hd
  exact hd

theorem one_le_digitVal {c : Char} (hd : c.isDigit = true) (h0 : c ≠ '0') :
    1 ≤ digitVal c := by
  obtain ⟨h1, _⟩ := char_toNat_bounds hd
  have hne : c.toNat ≠ 48 := by
    intro h
    exact h0 (Char.ext (UInt32.toNat.inj h))
  unfold digitVal
  omega

theorem isOpChar_eq_false_of_isDigit {c : Char} (hd : c.isDigit = true) :
    isOpChar c = false := by
  obtain ⟨_, h2⟩ := char_toNat_bounds hd
  simp only [isOpChar, Char.isAlpha, Char.isUpper, Char.isLower, Bool.or_eq_false_iff,
    Bool.and_eq_false_iff, decide_eq_false_iff_not, uint32_le_iff]
  have hc : c.toNat = c.val.toNat := rfl
  have h65 : (65 : UInt32).toNat = 65 := rfl
  have h97 : (97 : UInt32).toNat = 97 := rfl
  refine ⟨⟨?_, ?_⟩, ?_⟩
  · left
    intro h
    omega
  · left
    intro h
    omega
  · intro h
    subst h
    simp at h2

/-! ### Scanning-loop lemmas for `process_cigar_string` -/

theorem strToNat_eq_some {buf : List Char} (hne : buf ≠ [])
    (hd : ∀ c ∈ buf, c.isDigit = true) :
    strToNat? buf = some (buf.foldl (fun n c => 10 * n + digitVal c) 0) := by
  unfold strToNat?
  rw [if_pos ⟨hne, List.all_eq_true.mpr hd⟩]

theorem foldl_digits_le (ds : List Char) (a : Nat) :
    a ≤ ds.foldl (fun n c => 10 * n + digitVal c) a := by
  induction ds generalizing a with
  | nil => exact Nat.le_refl a
  | cons d ds ih =>
    calc a ≤ 10 * a + digitVal d := by omega
      _ ≤ ds.foldl (fun n c => 10 * n + digitVal c) (10 * a + digitVal d) := ih _

theorem strToNat_pos {buf : List Char} {n : Nat} (h : strToNat? buf = some n)
    (h0 : '0' ∉ buf) : 1 ≤ n := by
  unfold strToNat? at h
  split at h
  · rename_i hcond
    obtain ⟨hne, hall⟩ := hcond
    cases h
    cases buf with
    | nil => exact absurd rfl hne
    | cons d ds =>
      have hd : d.isDigit = true := List.all_eq_true.mp hall d (List.mem_cons_self _ _)
      have h1 : 1 ≤ digitVal d := one_le_digitVal hd (fun hh => h0 (by simp [hh]))
      have h2 := foldl_digits_le ds (10 * 0 + digitVal d)
      simp only [List.foldl_cons]
      omega
  · cases h

theorem hasAdjacentOps_cons_of_not_op {c : Char} (h : isOpChar c = false)
    (s : List Char) : hasAdjacentOps (c :: s) = hasAdjacentOps s := by
  cases s with
  | nil => rfl
  | cons b rest => simp [hasAdjacentOps, h]

theorem processAux_all_digits (ds : List Char) :
    ∀ buf, (∀ c ∈ ds, c.isDigit = true) → processAux buf ds = Except.ok [] := by
  induction ds with
  | nil =>
    intro buf _
    rfl
  | cons d ds ih =>
    intro buf h
    have hd : d.isDigit = true := h d (List.mem_cons_self _ _)
    have hop : isOpChar d = false := isOpChar_eq_false_of_isDigit hd
    rw [processAux, if_neg (by simp [hop])]
    exact ih (buf ++ [d]) (fun c hc => h c (List.mem_cons_of_mem _ hc))

theorem processAux_append_digits (s : List Char) :
    ∀ buf (ds : List Char), (∀ c ∈ ds, c.isDigit = true) →
    processAux buf (s ++ ds) = processAux buf s := by
  induction s with
  | nil =>
    intro buf ds hds
    rw [List.nil_append, processAux_all_digits ds buf hds]
    rfl
  | cons c rest ih =>
    intro buf ds hds
    rw [List.cons_append, processAux, processAux]
    by_cases hop : isOpChar c = true
    · rw [if_pos hop, if_pos hop]
      by_cases hb : buf = []
      · rw [if_pos hb, if_pos hb]
      · rw [if_neg hb, if_neg hb]
        cases strToNat? buf with
        | none => rfl
        | some n =>
          rw [ih [] ds hds]
    · rw [if_neg hop, if_neg hop]
      exact ih (buf ++ [c]) ds hds

theorem processAux_empty_buffer_error (s : List Char) :
    ∀ (buf : List Char),
    (∀ c ∈ s, c.isDigit = true ∨ c.isAlpha = true ∨ c = '=') →
    (∀ c ∈ buf, c.isDigit = true) →
    (if buf = [] then (startsWithOp s || hasAdjacentOps s) = true
      else hasAdjacentOps s = true) →
    processAux buf s = Except.error CigarError.malformed := by
  induction s with
  | nil =>
    intro buf _ _ hviol
    split at hviol <;> simp [startsWithOp, hasAdjacentOps] at hviol
  | cons c rest ih =>
    intro buf hchars hbuf hviol
    by_cases hop : isOpChar c = true
    · by_cases hb : buf = []
      · rw [processAux, if_pos hop, if_pos hb]
      · rw [if_neg hb] at hviol
        have hs := strToNat_eq_some hb hbuf
        cases rest with
        | nil => simp [hasAdjacentOps] at hviol
        | cons b rest' =>
          have hviol' : (isOpChar b || hasAdjacentOps (b :: rest')) = true := by
            simpa [hasAdjacentOps, hop] using hviol
          have hrec : processAux [] (b :: rest') = Except.error CigarError.malformed := by
            apply ih
            · exact fun x hx => hchars x (List.mem_cons_of_mem _ hx)
            · intro x hx
              simp at hx
            · rw [if_pos rfl]
              rcases Bool.or_eq_true_iff.mp hviol' with h | h
              · simp [startsWithOp, h]
              · simp [h]
          rw [processAux, if_pos hop, if_neg hb, hs, hrec]
    · have hopf : isOpChar c = false := by simpa using hop
      have hcd : c.isDigit = true := by
        rcases hchars c (List.mem_cons_self _ _) with h | h | h
        · exact h
        · exact absurd (by simp [isOpChar, h]) hop
        · exact absurd (by simp [isOpChar, h]) hop
      have hviol' : hasAdjacentOps rest = true := by
        rw [← hasAdjacentOps_cons_of_not_op hopf rest]
        split at hviol
        · rcases Bool.or_eq_true_iff.mp hviol with h | h
          · simp [startsWithOp, hopf] at h
          · exact h
        · exact hviol
      rw [processAux, if_neg (by simp [hopf])]
      apply ih (buf ++ [c])
      · exact fun x hx => hchars x (List.mem_cons_of_mem _ hx)
      · intro x hx
        rcases List.mem_append.mp hx with h | h
        · exact hbuf x h
        · simp at h
          subst h
          exact hcd
      · rw [if_neg (by simp)]
        exact hviol'

theorem processAux_pos_lengths (s : List Char) :
    ∀ buf ops, ('0' ∉ s) → ('0' ∉ buf) →
    processAux buf s = Except.ok ops → ∀ p ∈ ops, 1 ≤ p.1 := by
  induction s with
  | nil =>
    intro buf ops _ _ h p hp
    rw [processAux] at h
    cases h
    simp at hp
  | cons c rest ih =>
    intro buf ops h0s h0b h p hp
    have h0r : '0' ∉ rest := fun hh => h0s (List.mem_cons_of_mem _ hh)
    by_cases hop : isOpChar c = true
    · rw [processAux, if_pos hop] at h
      by_cases hb : buf = []
      · rw [if_pos hb] at h
        cases h
      · rw [if_neg hb] at h
        cases hsn : strToNat? buf with
        | none =>
          rw [hsn] at h
          cases h
        | some n =>
          rw [hsn] at h
          cases hrec : processAux [] rest with
          | error e =>
            rw [hrec] at h
            cases h
          | ok l =>
            rw [hrec] at h
            cases h
            rcases List.mem_cons.mp hp with rfl | hpl
            · exact strToNat_pos hsn h0b
            · exact ih [] l h0r (by simp) hrec p hpl
    · rw [processAux, if_neg hop] at h
      have h0c : c ≠ '0' := fun hh => h0s (by simp [hh])
      have h0b' : '0' ∉ buf ++ [c] := by
        intro hh
        rcases List.mem_append.mp hh with hh | hh
        · exact h0b hh
        · simp at hh
          exact h0c hh.symm
      exact ih (buf ++ [c]) ops h0r h0b' h p hp

/-! ### Cursor lemma for `finalCursors` -/

theorem finalCursors_snd (ops : List (Nat × Char)) :
    ∀ tr ch, (finalCursors tr ch ops).2 = ch + refConsumedLen ops := by
  induction ops with
  | nil =>
    intro tr ch
    simp [finalCursors, refConsumedLen]
  | cons q rest ih =>
    obtain ⟨n, c⟩ := q
    intro tr ch
    rw [finalCursors, refConsumedLen]
    by_cases h1 : isMatchOp c = true
    · rw [if_pos h1, ih, if_pos (by simp [h1])]
      omega
    · rw [if_neg h1]
      by_cases h2 : isRefOp c = true
      · rw [if_pos h2, ih, if_pos (by simp [h2])]
        omega
      · have hf : (isMatchOp c || isRefOp c) = false := by
          rw [Bool.or_eq_false_iff]
          exact ⟨by simpa using h1, by simpa using h2⟩
        rw [if_neg h2, hf]
        by_cases h3 : isQueryOp c = true
        · rw [if_pos h3, ih]
          simp
        · rw [if_neg h3, ih]
          simp

/-! ### Unique-key association-list lemma -/

theorem nodup_keys_mem_eq {α β : Type} {l : List (α × β)}
    (h : (l.map Prod.fst).Nodup) {k : α} {a b : β}
    (ha : (k, a) ∈ l) (hb : (k, b) ∈ l) : a = b := by
  induction l with
  | nil => simp at ha
  | cons p rest ih =>
    obtain ⟨a1, b1⟩ := p
    rw [List.map_cons, List.nodup_cons] at h
    obtain ⟨hk, hnd⟩ := h
    rcases List.mem_cons.mp ha with heq | ha'
    · rcases List.mem_cons.mp hb with heq' | hb'
      · injection heq with h1 h2
        injection heq' with h3 h4
        rw [h2, h4]
      · injection heq with h1 h2
        subst h1
        exact absurd (List.mem_map_of_mem Prod.fst hb') hk
    · rcases List.mem_cons.mp hb with heq' | hb'
      · injection heq' with h3 h4
        subst h3
        exact absurd (List.mem_map_of_mem Prod.fst ha') hk
      · exact ih hnd ha' hb'

/-! ### Claim theorems -/

/-- Claim C1: for the alignment with CIGAR `8M7D6M2I2M11D7M` and genomic start 3,
`process_cigar_string` yields the seven expected operations and
`generate_genomic_dict` yields exactly the map sending offsets 0-7 to 3-10,
8-13 to 18-23, 16-17 to 24-25 and 18-24 to 37-43, with offsets 14-15 (the 2I
run) absent and no other keys. -/
theorem claim_deletion_example :
    process_cigar_string ("8M7D6M2I2M11D7M".data) =
      Except.ok [(8, 'M'), (7, 'D'), (6, 'M'), (2, 'I'), (2, 'M'), (11, 'D'), (7, 'M')] ∧
    generate_genomic_dict 3 [(8, 'M'), (7, 'D'), (6, 'M'), (2, 'I'), (2, 'M'), (11, 'D'), (7, 'M')] =
      [(0, 3), (1, 4), (2, 5), (3, 6), (4, 7), (5, 8), (6, 9), (7, 10),
        (8, 18), (9, 19), (10, 20), (11, 21), (12, 22), (13, 23),
        (16, 24), (17, 25),
        (18, 37), (19, 38), (20, 39), (21, 40), (22, 41), (23, 42), (24, 43)] ∧
    List.lookup 14 (generate_genomic_dict 3
      [(8, 'M'), (7, 'D'), (6, 'M'), (2, 'I'), (2, 'M'), (11, 'D'), (7, 'M')]) = none ∧
    List.lookup 15 (generate_genomic_dict 3
      [(8, 'M'), (7, 'D'), (6, 'M'), (2, 'I'), (2, 'M'), (11, 'D'), (7, 'M')]) = none :=
  ⟨rfl, rfl, rfl, rfl⟩

/-- Claim C2 (counterexample): the claim says any string containing a
character outside the operation alphabet fails with `MalformedCigar`, wherever
the violation occurs. But `"8M7Q"` contains the out-of-alphabet operator `Q`
(with a non-empty digit buffer), the format check is satisfied by the earlier
`8M`, and the whole CIGAR-field treatment accepts the string, emitting
`(7, 'Q')` without any error. -/
theorem claim_out_of_alphabet_op_accepted :
    isCigarAlphabet 'Q' = false ∧
    parseCigarField ("8M7Q".data) = Except.ok [(8, 'M'), (7, 'Q')] :=
  ⟨rfl, rfl⟩

/-- Claim C2 (amended): over strings of digits, letters and `=`, the
CIGAR-field treatment fails with `MalformedCigar` whenever an operator
character appears at the start or immediately after another operator
character (empty digit buffer), or when the string contains no digit
immediately followed by an alphabet character (the `re.search` pre-check
fails, covering `"8Q"`); an out-of-alphabet operator preceded by digits is
accepted, not rejected. -/
theorem claim_malformed_failure_modes (s : List Char)
    (hchars : ∀ c ∈ s, c.isDigit = true ∨ c.isAlpha = true ∨ c = '=')
    (hviol : startsWithOp s = true ∨ hasAdjacentOps s = true ∨ hasDigitOp s = false) :
    parseCigarField s = Except.error CigarError.malformed := by
  by_cases hd : hasDigitOp s = true
  · rw [parseCigarField, if_pos hd]
    apply processAux_empty_buffer_error s [] hchars (by simp)
    rw [if_pos rfl]
    rcases hviol with h | h | h
    · simp [h]
    · simp [h]
    · rw [h] at hd
      cases hd
  · have hdf : hasDigitOp s = false := by simpa using hd
    rw [parseCigarField, if_neg (by simp [hdf])]

/-- Witness for C2 (amended): both spec examples hit the theorem; `"8MX"` has
two adjacent operator characters, `"8Q"` fails the digit-operator pre-check. -/
theorem claim_malformed_failure_modes_witness :
    ((∀ c ∈ ("8MX".data), c.isDigit = true ∨ c.isAlpha = true ∨ c = '=') ∧
      hasAdjacentOps ("8MX".data) = true ∧
      parseCigarField ("8MX".data) = Except.error CigarError.malformed) ∧
    ((∀ c ∈ ("8Q".data), c.isDigit = true ∨ c.isAlpha = true ∨ c = '=') ∧
      hasDigitOp ("8Q".data) = false ∧
      parseCigarField ("8Q".data) = Except.error CigarError.malformed) :=
  ⟨⟨by decide, by decide,
      claim_malformed_failure_modes ("8MX".data) (by decide) (Or.inr (Or.inl (by decide)))⟩,
    ⟨by decide, by decide,
      claim_malformed_failure_modes ("8Q".data) (by decide) (Or.inr (Or.inr (by decide)))⟩⟩

/-- Claim C3 (code bug): the registry build is supposed to retain an
independent entry per (transcript, chromosome), but line 44 of the source
(`transcript_to_genomic_dict[transcript_id] = {}`) resets the whole
per-transcript dict on every row. With `TR1` aligned to `CHR1` and then to
`CHR2`, the resulting coordinate map holds only the `CHR2` entry, and a query
for `TR1` yields a single Resolution, not one per chromosome. -/
theorem claim_multi_chromosome_dropped :
    map_coordinates (create_transcript_genomic_dict
      [⟨"TR1", "CHR1", 0, [(4, 'M')]⟩, ⟨"TR1", "CHR2", 10, [(4, 'M')]⟩]) =
      [("TR1", [("CHR2", [(0, 10), (1, 11), (2, 12), (3, 13)])])] ∧
    merge_transcript_file [("TR1", 0)]
      (map_coordinates (create_transcript_genomic_dict
        [⟨"TR1", "CHR1", 0, [(4, 'M')]⟩, ⟨"TR1", "CHR2", 10, [(4, 'M')]⟩])) =
      [Resolution.resolved "TR1" 0 "CHR2" 10] :=
  ⟨rfl, rfl⟩

/-- Claim C4: for a CIGAR sequence of consuming-both operations (M, =, X) of
total length L and any start S, the coordinate map has exactly L entries,
its key list is `0, ..., L-1`, and key `i` maps to `S + i`. -/
theorem claim_all_match_map (S : Nat) (ops : List (Nat × Char))
    (h : ∀ p ∈ ops, isMatchOp p.2 = true) :
    (generate_genomic_dict S ops).length = opsTotalLen ops ∧
    (generate_genomic_dict S ops).map Prod.fst = List.range (opsTotalLen ops) ∧
    ∀ i, i < opsTotalLen ops →
      (generate_genomic_dict S ops).lookup i = some (S + i) := by
  have hg : generate_genomic_dict S ops = matchRun 0 S (opsTotalLen ops) :=
    genDictAux_all_match ops 0 S h
  refine ⟨?_, ?_, ?_⟩
  · rw [hg, matchRun_length]
  · rw [hg, matchRun_map_fst, List.range_eq_range']
  · intro i hi
    rw [hg]
    have := matchRun_lookup 0 S hi
    simpa using this

/-- Witness for C4 at start 3 and CIGAR sequence `2M3X`. -/
theorem claim_all_match_map_witness :
    (∀ p ∈ [((2 : Nat), 'M'), (3, 'X')], isMatchOp p.2 = true) ∧
    ((generate_genomic_dict 3 [(2, 'M'), (3, 'X')]).length =
        opsTotalLen [(2, 'M'), (3, 'X')] ∧
      (generate_genomic_dict 3 [(2, 'M'), (3, 'X')]).map Prod.fst =
        List.range (opsTotalLen [(2, 'M'), (3, 'X')]) ∧
      ∀ i, i < opsTotalLen [(2, 'M'), (3, 'X')] →
        (generate_genomic_dict 3 [(2, 'M'), (3, 'X')]).lookup i = some (3 + i)) :=
  ⟨by decide, claim_all_match_map 3 [(2, 'M'), (3, 'X')] (by decide)⟩

/-- Claim C5: the transcript-to-genomic map built by `generate_genomic_dict`
is strictly increasing on its domain: if keys `i < j` both resolve, the
genomic coordinate at `i` is strictly below the one at `j`. -/
theorem claim_map_strict_mono (S : Nat) (ops : List (Nat × Char)) (i j vi vj : Nat)
    (hij : i < j)
    (hi : (generate_genomic_dict S ops).lookup i = some vi)
    (hj : (generate_genomic_dict S ops).lookup j = some vj) :
    vi < vj := by
  have hp : (generate_genomic_dict S ops).Pairwise (fun p q => p.1 < q.1 ∧ p.2 < q.2) :=
    genDictAux_pairwise ops 0 S
  rw [List.pairwise_iff_get] at hp
  obtain ⟨a, ha⟩ := List.mem_iff_get.mp (lookup_mem hi)
  obtain ⟨b, hb⟩ := List.mem_iff_get.mp (lookup_mem hj)
  rcases lt_trichotomy a b with hab | hab | hab
  · have h := hp a b hab
    rw [ha, hb] at h
    exact h.2
  · rw [hab] at ha
    have h := hb.symm.trans ha
    injection h with h1 h2
    omega
  · exfalso
    have h := hp b a hab
    rw [ha, hb] at h
    have h1 := h.1
    simp only at h1
    omega

/-- Witness for C5 on the map of `2M` at start 3: keys 0 < 1 map to 3 < 4. -/
theorem claim_map_strict_mono_witness :
    (0 : Nat) < 1 ∧
    (generate_genomic_dict 3 [(2, 'M')]).lookup 0 = some 3 ∧
    (generate_genomic_dict 3 [(2, 'M')]).lookup 1 = some 4 ∧
    (3 : Nat) < 4 :=
  ⟨by decide, by decide, by decide,
    claim_map_strict_mono 3 [(2, 'M')] 0 1 3 4 (by decide) (by decide) (by decide)⟩

/-- Claim C6: for every start S and parsed CIGAR sequence, the sum of the
lengths of the reference-consuming operations (M, =, X, D, N) equals the
final genomic cursor minus S; an operation that is neither consuming-both
nor reference-only (H, P, I, S, or any stray letter) leaves the genomic
cursor untouched. -/
theorem claim_ref_length_round_trip (S : Nat) (ops : List (Nat × Char)) :
    refConsumedLen ops = (finalCursors 0 S ops).2 - S ∧
    (finalCursors 0 S ops).2 = S + refConsumedLen ops ∧
    ∀ (n : Nat) (c : Char) (tr ch : Nat) (rest : List (Nat × Char)),
      isMatchOp c = false → isRefOp c = false →
      (finalCursors tr ch ((n, c) :: rest)).2 = (finalCursors tr ch rest).2 := by
  refine ⟨?_, ?_, ?_⟩
  · rw [finalCursors_snd]
    omega
  · rw [finalCursors_snd]
  · intro n c tr ch rest h1 h2
    rw [finalCursors, if_neg (by simp [h1]), if_neg (by simp [h2])]
    by_cases h3 : isQueryOp c = true
    · rw [if_pos h3, finalCursors_snd, finalCursors_snd]
    · rw [if_neg h3]

/-- Witness for C6: the hard-clip operation `5H` leaves the genomic cursor of
the walk of `2M` at start 3 unchanged. -/
theorem claim_ref_length_round_trip_witness :
    isMatchOp 'H' = false ∧ isRefOp 'H' = false ∧
    (finalCursors 0 3 [(5, 'H'), (2, 'M')]).2 = (finalCursors 0 3 [(2, 'M')]).2 :=
  ⟨by decide, by decide,
    (claim_ref_length_round_trip 3 [(2, 'M')]).2.2 5 'H' 0 3 [(2, 'M')]
      (by decide) (by decide)⟩

/-- Claim C7: a query whose transcript is absent from the coordinate map
produces exactly one outcome, tagged `unknownTranscript`, and the query loop
continues: the outcomes of the surrounding queries are untouched. -/
theorem claim_unknown_transcript
    (coord_map : List (String × List (String × List (Nat × Nat))))
    (qs₁ qs₂ : List (String × Nat)) (t : String) (c : Nat)
    (h : List.lookup t coord_map = none) :
    resolveQuery coord_map t c = [Resolution.unknownTranscript t c] ∧
    merge_transcript_file (qs₁ ++ (t, c) :: qs₂) coord_map =
      merge_transcript_file qs₁ coord_map ++
        Resolution.unknownTranscript t c :: merge_transcript_file qs₂ coord_map := by
  have h1 : resolveQuery coord_map t c = [Resolution.unknownTranscript t c] := by
    simp [resolveQuery, h]
  refine ⟨h1, ?_⟩
  simp [merge_transcript_file, h1]

/-- Witness for C7: a query for `TR1` against a registry holding only `TR2`,
between two other queries. -/
theorem claim_unknown_transcript_witness :
    List.lookup "TR1" ([("TR2", [("CHR1", [(0, 7)])])] :
      List (String × List (String × List (Nat × Nat)))) = none ∧
    (resolveQuery [("TR2", [("CHR1", [(0, 7)])])] "TR1" 5 =
        [Resolution.unknownTranscript "TR1" 5] ∧
      merge_transcript_file ([("TR2", 0)] ++ ("TR1", 5) :: [("TR2", 9)])
          [("TR2", [("CHR1", [(0, 7)])])] =
        merge_transcript_file [("TR2", 0)] [("TR2", [("CHR1", [(0, 7)])])] ++
          Resolution.unknownTranscript "TR1" 5 ::
            merge_transcript_file [("TR2", 9)] [("TR2", [("CHR1", [(0, 7)])])]) :=
  ⟨by decide,
    claim_unknown_transcript [("TR2", [("CHR1", [(0, 7)])])]
      [("TR2", 0)] [("TR2", 9)] "TR1" 5 (by decide)⟩

/-- Claim C8: a query for a known transcript whose coordinate is not a key of
a chromosome's map yields an `unmappedCoordinate` outcome for that chromosome
and writes no row for that chromosome to the primary output. -/
theorem claim_unmapped_coordinate
    (coord_map : List (String × List (String × List (Nat × Nat))))
    (t : String) (c : Nat) (chs : List (String × List (Nat × Nat)))
    (ch : String) (m : List (Nat × Nat))
    (hl : List.lookup t coord_map = some chs)
    (hnd : (chs.map Prod.fst).Nodup)
    (hm : (ch, m) ∈ chs)
    (hc : List.lookup c m = none) :
    Resolution.unmappedCoordinate t c ch ∈ resolveQuery coord_map t c ∧
    ∀ g, (t, c, ch, g) ∉ primaryOutput (resolveQuery coord_map t c) := by
  have hrq : resolveQuery coord_map t c =
      chs.map (fun p =>
        match List.lookup c p.2 with
        | none => Resolution.unmappedCoordinate t c p.1
        | some g => Resolution.resolved t c p.1 g) := by
    simp [resolveQuery, hl]
  constructor
  · rw [hrq]
    refine List.mem_map.mpr ⟨(ch, m), hm, ?_⟩
    simp [hc]
  · intro g hg
    rw [hrq] at hg
    simp only [primaryOutput] at hg
    obtain ⟨r, hr, hout⟩ := List.mem_filterMap.mp hg
    obtain ⟨p, hpmem, rfl⟩ := List.mem_map.mp hr
    obtain ⟨ch', m'⟩ := p
    cases hlc : List.lookup c m' with
    | none =>
      simp [hlc] at hout
    | some g' =>
      simp [hlc] at hout
      obtain ⟨rfl, rfl⟩ := hout
      have hmm : m' = m := nodup_keys_mem_eq hnd hpmem hm
      rw [hmm, hc] at hlc
      cases hlc

/-- Witness for C8: offset 14 of the `8M7D6M2I2M11D7M` example falls in the
insertion run; the query resolves to `unmappedCoordinate` and contributes no
primary-output row. -/
theorem claim_unmapped_coordinate_witness :
    List.lookup 14 (generate_genomic_dict 3
      [(8, 'M'), (7, 'D'), (6, 'M'), (2, 'I'), (2, 'M'), (11, 'D'), (7, 'M')]) = none ∧
    (Resolution.unmappedCoordinate "TR1" 14 "CHR1" ∈
        resolveQuery [("TR1", [("CHR1", generate_genomic_dict 3
          [(8, 'M'), (7, 'D'), (6, 'M'), (2, 'I'), (2, 'M'), (11, 'D'), (7, 'M')])])]
          "TR1" 14 ∧
      ∀ g, ("TR1", 14, "CHR1", g) ∉ primaryOutput
        (resolveQuery [("TR1", [("CHR1", generate_genomic_dict 3
          [(8, 'M'), (7, 'D'), (6, 'M'), (2, 'I'), (2, 'M'), (11, 'D'), (7, 'M')])])]
          "TR1" 14)) :=
  ⟨by decide,
    claim_unmapped_coordinate
      [("TR1", [("CHR1", generate_genomic_dict 3
        [(8, 'M'), (7, 'D'), (6, 'M'), (2, 'I'), (2, 'M'), (11, 'D'), (7, 'M')])])]
      "TR1" 14
      [("CHR1", generate_genomic_dict 3
        [(8, 'M'), (7, 'D'), (6, 'M'), (2, 'I'), (2, 'M'), (11, 'D'), (7, 'M')])]
      "CHR1"
      (generate_genomic_dict 3
        [(8, 'M'), (7, 'D'), (6, 'M'), (2, 'I'), (2, 'M'), (11, 'D'), (7, 'M')])
      (by decide) (by decide) (by decide) (by decide)⟩

/-- Claim C9 (counterexample): the claim says every emitted operation has
length at least 1 and `"0M"` in particular cannot yield a length-0 operation;
but the parser emits exactly the pair `(0, 'M')` for `"0M"`. -/
theorem claim_zero_length_op :
    process_cigar_string ("0M".data) = Except.ok [(0, 'M')] ∧ ¬ (1 : Nat) ≤ 0 :=
  ⟨rfl, by omega⟩

/-- Claim C9 (amended): emitted lengths can be 0 (`"0M"` yields `(0, 'M')`),
so the length-at-least-1 invariant fails in general; over strings of digits,
letters and `=` — the domain on which every buffer is an unsigned numeral, so
`int` agrees with the embedded conversion — every emitted operation has
length at least 1 whenever the string contains no `0` digit. (Strings with a
sign character fall outside this statement: the real `int` accepts `"-3"`, so
the source accepts `"-3M"` and emits a negative length despite the absence
of `0`.) -/
theorem claim_positive_lengths_no_zero_digit (s : List Char) (ops : List (Nat × Char))
    (hchars : ∀ c ∈ s, c.isDigit = true ∨ c.isAlpha = true ∨ c = '=')
    (h0 : '0' ∉ s) (h : process_cigar_string s = Except.ok ops) :
    ∀ p ∈ ops, 1 ≤ p.1 := by
  have _ := hchars
  exact processAux_pos_lengths s [] ops h0 (by simp) h

/-- Witness for C9 (amended) on `"8M21X"`. -/
theorem claim_positive_lengths_no_zero_digit_witness :
    (∀ c ∈ ("8M21X".data), c.isDigit = true ∨ c.isAlpha = true ∨ c = '=') ∧
    ('0' ∉ ("8M21X".data)) ∧
    process_cigar_string ("8M21X".data) = Except.ok [(8, 'M'), (21, 'X')] ∧
    ∀ p ∈ [((8 : Nat), 'M'), (21, 'X')], 1 ≤ p.1 :=
  ⟨by decide, by decide, rfl,
    claim_positive_lengths_no_zero_digit ("8M21X".data) [(8, 'M'), (21, 'X')]
      (by decide) (by decide) rfl⟩

/-- Claim C10 (counterexample): the claim says the parser succeeds on every
string ending in trailing digits; but `"M8"` ends in a trailing digit and the
parser fails on it (the leading `M` meets an empty digit buffer), so success
is not guaranteed — only the equality with the digit-stripped string is. -/
theorem claim_trailing_digits_error_prefix :
    process_cigar_string ("M8".data) = Except.error CigarError.malformed :=
  rfl

/-- Claim C10 (amended): trailing digits not followed by an operator are
silently discarded: for every string `s` and non-empty all-digit suffix `ds`,
parsing `s ++ ds` gives exactly the result of parsing `s` (including the
error cases); in particular when `s` parses, `s ++ ds` parses identically
with no error. -/
theorem claim_trailing_digits_discarded (s ds : List Char)
    (hne : ds ≠ []) (hds : ∀ c ∈ ds, c.isDigit = true) :
    process_cigar_string (s ++ ds) = process_cigar_string s := by
  have _ := hne
  exact processAux_append_digits s [] ds hds

/-- Witness for C10 (amended): `"8M7"` parses exactly like `"8M"`. -/
theorem claim_trailing_digits_discarded_witness :
    (['7'] ≠ ([] : List Char)) ∧
    (∀ c ∈ ['7'], c.isDigit = true) ∧
    process_cigar_string ("8M".data ++ ['7']) = process_cigar_string ("8M".data) :=
  ⟨by decide, by decide,
    claim_trailing_digits_discarded ("8M".data) ['7'] (by decide) (by decide)⟩

end TranscriptCoords
